import Mathlib

/-!
# Verification of the KaitaiStream runtime (src/kaitai-stream.ts)

Shallow embedding of the stream runtime.  JavaScript numbers that hold
integers are modelled by `Int`/`Nat`; the JavaScript 32-bit bitwise
operators (`&`, `|`, `^`, `<<`, `>>`, `>>>`) are modelled precisely,
including their ToInt32/ToUint32 coercions and the mod-32 reduction of
shift counts.  The mutable stream object is a `KaitaiStream` structure
threaded explicitly; a `throw` aborts the operation returning the state
at the moment of the throw.
-/

deriving instance DecidableEq for Except

/-- JavaScript ToUint32 of an integer-valued number: the low 32 bits,
as an unsigned value. -/
def toUint32 (x : Int) : Nat := (x % 4294967296).toNat

/-- Reinterpret an unsigned 32-bit pattern (`u < 2^32`) as a signed
32-bit (two's-complement) value. -/
def sInt32 (u : Nat) : Int := if u < 2147483648 then (u : Int) else (u : Int) - 4294967296

/-- JavaScript ToInt32 of an integer-valued number. -/
def toInt32 (x : Int) : Int := sInt32 (toUint32 x)

/-- JavaScript `a & b` (signed 32-bit result). -/
def jsAnd (a b : Int) : Int := sInt32 (toUint32 a &&& toUint32 b)

/-- JavaScript `a | b` (signed 32-bit result). -/
def jsOr (a b : Int) : Int := sInt32 (toUint32 a ||| toUint32 b)

/-- JavaScript `a ^ b` (signed 32-bit result). -/
def jsXor (a b : Int) : Int := sInt32 (toUint32 a ^^^ toUint32 b)

/-- JavaScript shift count: `ToUint32(k) mod 32`. -/
def shiftCount (k : Int) : Nat := toUint32 k % 32

/-- JavaScript `a << k` (signed 32-bit result, count mod 32). -/
def jsShl (a k : Int) : Int := sInt32 ((toUint32 a <<< shiftCount k) % 4294967296)

/-- JavaScript `a >> k` (sign-propagating right shift = floor division
of the signed value by `2^(k mod 32)`). -/
def jsShr (a k : Int) : Int := Int.fdiv (toInt32 a) (2 ^ shiftCount k)

/-- JavaScript `a >>> k` (unsigned right shift; result in `[0, 2^32)`). -/
def jsShrU (a k : Int) : Int := ((toUint32 a / 2 ^ shiftCount k : Nat) : Int)

/-- Storing a number into a `Uint8Array` cell keeps its low 8 bits. -/
def toUint8 (x : Int) : Nat := (x % 256).toNat

/-- The error taxonomy used by the runtime: `EOFError`,
`UnexpectedDataError`, and generic thrown `Error`s / strings. -/
inductive KError where
  | eofError (bytesRequired bytesAvailable : Int)
  | unexpectedDataError (expected actual : List Nat)
  | err (msg : String)
deriving DecidableEq, Repr

/-- A JavaScript number argument as passed to `seek`: an integer value,
an infinity, or NaN. -/
inductive JSNum where
  | num (x : Int)
  | posInf
  | negInf
  | nan
deriving DecidableEq, Repr

/-- JavaScript `Math.min` on two values (NaN propagates). -/
def jsMin : JSNum → JSNum → JSNum
  | JSNum.nan, _ => JSNum.nan
  | _, JSNum.nan => JSNum.nan
  | JSNum.negInf, _ => JSNum.negInf
  | _, JSNum.negInf => JSNum.negInf
  | JSNum.posInf, b => b
  | a, JSNum.posInf => a
  | JSNum.num x, JSNum.num y => JSNum.num (min x y)

/-- JavaScript `Math.max` on two values (NaN propagates). -/
def jsMax : JSNum → JSNum → JSNum
  | JSNum.nan, _ => JSNum.nan
  | _, JSNum.nan => JSNum.nan
  | JSNum.posInf, _ => JSNum.posInf
  | _, JSNum.posInf => JSNum.posInf
  | JSNum.negInf, b => b
  | a, JSNum.negInf => a
  | JSNum.num x, JSNum.num y => JSNum.num (max x y)

/-- The stream state: the bytes of the buffer view (from `_byteOffset`
to the end of the buffer), the byte cursor `pos`, the bit accumulator
`bits` and the unread-bit count `bitsLeft` (both JavaScript numbers,
modelled as `Int`). -/
structure KaitaiStream where
  data : List Nat
  pos : Nat
  bits : Int
  bitsLeft : Int
deriving DecidableEq, Repr

namespace KaitaiStream

/-- `new KaitaiStream(buffer)`: `pos = 0`, then `alignToByte()`. -/
def ofBytes (data : List Nat) : KaitaiStream := ⟨data, 0, 0, 0⟩

/-- `size`: `_byteLength - _byteOffset`, i.e. the length of the view. -/
def size (s : KaitaiStream) : Nat := s.data.length

/-- `seek(pos)`: `npos = Math.max(0, Math.min(this.size, pos))`; then
`this.pos = isNaN(npos) || !isFinite(npos) ? 0 : npos`. -/
def seek (p : JSNum) (s : KaitaiStream) : KaitaiStream :=
  let npos := jsMax (JSNum.num 0) (jsMin (JSNum.num s.size) p)
  { s with pos := match npos with
      | JSNum.num x => x.toNat
      | _ => 0 }

/-- `alignToByte()`: clear the bit accumulator. -/
def alignToByte (s : KaitaiStream) : KaitaiStream := { s with bits := 0, bitsLeft := 0 }

/-- `ensureBytesLeft(length)`: throw `EOFError(length, size - pos)` when
`pos + length > size`. -/
def ensureBytesLeft (length : Int) (s : KaitaiStream) : Except KError Unit × KaitaiStream :=
  if (s.size : Int) < (s.pos : Int) + length then
    (Except.error (KError.eofError length ((s.size : Int) - (s.pos : Int))), s)
  else
    (Except.ok (), s)

/-- `mapUint8Array(length)`: `length |= 0`; `ensureBytesLeft(length)`;
return the next `length` bytes and advance `pos`. -/
def mapUint8Array (length : Nat) (s : KaitaiStream) : Except KError (List Nat) × KaitaiStream :=
  let len : Int := toInt32 length
  match ensureBytesLeft len s with
  | (Except.error e, s') => (Except.error e, s')
  | (Except.ok _, s') =>
      (Except.ok ((s'.data.drop s'.pos).take len.toNat),
       { s' with pos := s'.pos + len.toNat })

/-- `readBytes(len)`: `mapUint8Array(len)`. -/
def readBytes (len : Nat) (s : KaitaiStream) : Except KError (List Nat) × KaitaiStream :=
  mapUint8Array len s

/-- Byte of the view at absolute index `i` (reads through `_dataView`
hit bytes that exist whenever `ensureBytesLeft` passed). -/
def getU8 (s : KaitaiStream) (i : Nat) : Nat := s.data.getD i 0

/-- `_dataView.getUint32(p, true)`: little-endian unsigned 32-bit. -/
def getU32le (s : KaitaiStream) (p : Nat) : Int :=
  ((getU8 s p + getU8 s (p + 1) * 256 + getU8 s (p + 2) * 65536
    + getU8 s (p + 3) * 16777216 : Nat) : Int)

/-- `readU4le()`: `ensureBytesLeft(4)`, read LE u32, `pos += 4`. -/
def readU4le (s : KaitaiStream) : Except KError Int × KaitaiStream :=
  match ensureBytesLeft 4 s with
  | (Except.error e, s') => (Except.error e, s')
  | (Except.ok _, s') => (Except.ok (getU32le s' s'.pos), { s' with pos := s'.pos + 4 })

/-- `readS8le()`: `ensureBytesLeft(8)`; `v1 = readU4le(); v2 = readU4le();`
if `(v2 & 0x80000000) !== 0` return
`-(0x100000000 * (v2 ^ 0xffffffff) + (v1 ^ 0xffffffff)) - 1`,
else `0x100000000 * v2 + v1`. -/
def readS8le (s : KaitaiStream) : Except KError Int × KaitaiStream :=
  match ensureBytesLeft 8 s with
  | (Except.error e, s') => (Except.error e, s')
  | (Except.ok _, s0) =>
    match readU4le s0 with
    | (Except.error e, s') => (Except.error e, s')
    | (Except.ok v1, s1) =>
      match readU4le s1 with
      | (Except.error e, s') => (Except.error e, s')
      | (Except.ok v2, s2) =>
        if jsAnd v2 2147483648 ≠ 0 then
          (Except.ok (-(4294967296 * jsXor v2 4294967295 + jsXor v1 4294967295) - 1), s2)
        else
          (Except.ok (4294967296 * v2 + v1), s2)

/-- One iteration of the byte-borrow loop of `readBitsIntBe`:
`this.bits <<= 8; this.bits |= buf[i]; this.bitsLeft += 8;`. -/
def beFillOne (st : KaitaiStream) (b : Nat) : KaitaiStream :=
  { st with bits := jsOr (jsShl st.bits 8) (b : Int), bitsLeft := st.bitsLeft + 8 }

/-- One iteration of the byte-borrow loop of `readBitsIntLe`:
`this.bits |= buf[i] << this.bitsLeft; this.bitsLeft += 8;`. -/
def leFillOne (st : KaitaiStream) (b : Nat) : KaitaiStream :=
  { st with bits := jsOr st.bits (jsShl (b : Int) st.bitsLeft), bitsLeft := st.bitsLeft + 8 }

/-- `readBitsIntBe(n)`. -/
def readBitsIntBe (n : Int) (s : KaitaiStream) : Except KError Int × KaitaiStream :=
  if 32 < n then
    (Except.error (KError.err
      ("readBitsIntBe: the maximum supported bit length is 32 (tried to read "
        ++ toString n ++ " bits)")), s)
  else
    let bitsNeeded := n - s.bitsLeft
    let filled : Except KError KaitaiStream :=
      if 0 < bitsNeeded then
        -- `Math.ceil(bitsNeeded / 8)` with `bitsNeeded > 0`
        let bytesNeeded := (bitsNeeded.toNat + 7) / 8
        match readBytes bytesNeeded s with
        | (Except.error e, _) => Except.error e
        | (Except.ok buf, s1) => Except.ok (buf.foldl beFillOne s1)
      else Except.ok s
    match filled with
    | Except.error e => (Except.error e, s)
    | Except.ok s2 =>
      let mask := if n = 32 then (4294967295 : Int) else jsShl 1 n - 1
      let shiftBits := s2.bitsLeft - n
      let res := jsAnd (jsShrU s2.bits shiftBits) mask
      let bitsLeft2 := s2.bitsLeft - n
      let mask2 := jsShl 1 bitsLeft2 - 1
      (Except.ok res, { s2 with bits := jsAnd s2.bits mask2, bitsLeft := bitsLeft2 })

/-- `readBitsIntLe(n)`. -/
def readBitsIntLe (n : Int) (s : KaitaiStream) : Except KError Int × KaitaiStream :=
  if 32 < n then
    (Except.error (KError.err
      ("readBitsIntLe: the maximum supported bit length is 32 (tried to read "
        ++ toString n ++ " bits)")), s)
  else
    let bitsNeeded := n - s.bitsLeft
    let filled : Except KError KaitaiStream :=
      if 0 < bitsNeeded then
        let bytesNeeded := (bitsNeeded.toNat + 7) / 8
        match readBytes bytesNeeded s with
        | (Except.error e, _) => Except.error e
        | (Except.ok buf, s1) => Except.ok (buf.foldl leFillOne s1)
      else Except.ok s
    match filled with
    | Except.error e => (Except.error e, s)
    | Except.ok s2 =>
      let mask := if n = 32 then (4294967295 : Int) else jsShl 1 n - 1
      let res := jsAnd s2.bits mask
      (Except.ok res, { s2 with bits := jsShr s2.bits n, bitsLeft := s2.bitsLeft - n })

/-- The successive values taken by the `bitsLeft` field while the
byte-borrow loop of `readBitsIntBe(n)` runs (first entry: on loop
entry; afterwards one entry per iteration).  Defined from the same
`beFillOne` step as `readBitsIntBe` itself. -/
def readBitsIntBeDuring (n : Int) (s : KaitaiStream) : List Int :=
  if 32 < n then []
  else
    let bitsNeeded := n - s.bitsLeft
    if 0 < bitsNeeded then
      let bytesNeeded := (bitsNeeded.toNat + 7) / 8
      match readBytes bytesNeeded s with
      | (Except.error _, _) => []
      | (Except.ok buf, s1) => (List.scanl beFillOne s1 buf).map KaitaiStream.bitsLeft
    else [s.bitsLeft]

/-- `readBytesTerm(terminator, include, consume, eosError)`. -/
def readBytesTerm (terminator : Nat) (inc consume eosError : Bool) (s : KaitaiStream) :
    Except KError (List Nat) × KaitaiStream :=
  let blen := s.size - s.pos
  let u8 := s.data.drop s.pos
  let i := u8.findIdx (fun b => b == terminator)
  if i = blen then
    if eosError then
      (Except.error (KError.err
        ("End of stream reached, but no terminator " ++ toString terminator ++ " found")), s)
    else
      mapUint8Array i s
  else
    match (if inc then mapUint8Array (i + 1) s else mapUint8Array i s) with
    | (Except.error e, s') => (Except.error e, s')
    | (Except.ok arr, s1) =>
        (Except.ok arr, if consume then { s1 with pos := s1.pos + 1 } else s1)

/-- `ensureFixedContents(expected)`: read `expected.length` bytes and
compare.  The index-by-index comparison loop of the source rejects the
read bytes exactly when (with equal lengths) the two lists differ. -/
def ensureFixedContents (expected : List Nat) (s : KaitaiStream) :
    Except KError (List Nat) × KaitaiStream :=
  match readBytes expected.length s with
  | (Except.error e, s') => (Except.error e, s')
  | (Except.ok actual, s') =>
    if actual.length ≠ expected.length then
      (Except.error (KError.unexpectedDataError expected actual), s')
    else if actual ≠ expected then
      (Except.error (KError.unexpectedDataError expected actual), s')
    else
      (Except.ok actual, s')

/-- `KaitaiStream.processRotateLeft(data, amount, groupSize)` (static). -/
def processRotateLeft (data : List Nat) (amount : Int) (groupSize : Int) :
    Except KError (List Nat) :=
  if groupSize ≠ 1 then
    Except.error (KError.err
      ("unable to rotate group of " ++ toString groupSize ++ " bytes yet"))
  else
    let mask : Int := groupSize * 8 - 1
    let antiAmount := jsAnd (-amount) mask
    Except.ok (data.map (fun b : Nat =>
      toUint8 (jsOr (jsAnd (jsShl (b : Int) amount) 255) (jsShr (b : Int) antiAmount))))

end KaitaiStream

/-- Stream states reachable from a freshly constructed stream by the
reader operations of the runtime (bit reads with `n ∈ [0, 32]`). -/
inductive Reachable : KaitaiStream → Prop where
  | ofBytes (data : List Nat) : Reachable (KaitaiStream.ofBytes data)
  | alignToByte {s} : Reachable s → Reachable (KaitaiStream.alignToByte s)
  | seek {s} (p : JSNum) : Reachable s → Reachable (KaitaiStream.seek p s)
  | ensureBytesLeft {s} (len : Int) : Reachable s →
      Reachable (KaitaiStream.ensureBytesLeft len s).2
  | readBytes {s} (len : Nat) : Reachable s → Reachable (KaitaiStream.readBytes len s).2
  | readBytesTerm {s} (t : Nat) (inc consume eosError : Bool) : Reachable s →
      Reachable (KaitaiStream.readBytesTerm t inc consume eosError s).2
  | ensureFixedContents {s} (expected : List Nat) : Reachable s →
      Reachable (KaitaiStream.ensureFixedContents expected s).2
  | readU4le {s} : Reachable s → Reachable (KaitaiStream.readU4le s).2
  | readS8le {s} : Reachable s → Reachable (KaitaiStream.readS8le s).2
  | readBitsIntBe {s} (n : Int) (h0 : 0 ≤ n) (h32 : n ≤ 32) : Reachable s →
      Reachable (KaitaiStream.readBitsIntBe n s).2
  | readBitsIntLe {s} (n : Int) (h0 : 0 ≤ n) (h32 : n ≤ 32) : Reachable s →
      Reachable (KaitaiStream.readBitsIntLe n s).2

open KaitaiStream

/-! ## Helper lemmas about the JavaScript integer model -/

theorem toUint32_natCast (u : Nat) (h : u < 4294967296) : toUint32 (u : Int) = u := by
  unfold toUint32; omega

theorem toUint32_sInt32 (u : Nat) (h : u < 4294967296) : toUint32 (sInt32 u) = u := by
  unfold toUint32 sInt32; split <;> omega

theorem sInt32_of_lt (u : Nat) (h : u < 2147483648) : sInt32 u = (u : Int) := if_pos h

theorem toInt32_natCast (u : Nat) (h : u < 2147483648) : toInt32 (u : Int) = (u : Int) := by
  unfold toInt32
  rw [toUint32_natCast u (by omega), sInt32_of_lt u h]

theorem mul_two_pow_lor {b k : Nat} (a : Nat) (hb : b < 2 ^ k) :
    a * 2 ^ k ||| b = a * 2 ^ k + b := by
  rw [Nat.mul_comm a (2 ^ k), ← Nat.mul_add_lt_is_or hb a]

/-! ## C8: ensureBytesLeft -/

/-- C8 (confirmed): for every nonnegative `n` and state, `ensureBytesLeft n`
succeeds iff `pos + n ≤ size`, otherwise it fails with `EOFError` carrying
`bytesRequired = n` and `bytesAvailable = size - pos`; the state is never
modified. -/
theorem ensureBytesLeft_spec (n : Nat) (s : KaitaiStream) :
    ((ensureBytesLeft n s).1 = Except.ok () ↔ s.pos + n ≤ s.size)
    ∧ (s.size < s.pos + n →
        (ensureBytesLeft n s).1 =
          Except.error (KError.eofError n ((s.size : Int) - (s.pos : Int))))
    ∧ (ensureBytesLeft n s).2 = s := by
  unfold KaitaiStream.ensureBytesLeft
  split
  · next h =>
    refine ⟨?_, fun _ => rfl, rfl⟩
    simp only [reduceCtorEq, false_iff]
    omega
  · next h =>
    refine ⟨?_, fun hcon => absurd hcon (by omega), rfl⟩
    simp only [true_iff]
    omega

/-- Witness for `ensureBytesLeft_spec`: requesting 7 bytes from a 5-byte
stream fails with `EOFError 7 5`. -/
theorem ensureBytesLeft_spec_witness :
    (ensureBytesLeft 7 (ofBytes [0, 0, 0, 0, 0])).1 = Except.error (KError.eofError 7 5)
    ∧ (ensureBytesLeft 4 (ofBytes [0, 0, 0, 0, 0])).1 = Except.ok () :=
  ⟨(ensureBytesLeft_spec 7 (ofBytes [0, 0, 0, 0, 0])).2.1 (by decide),
   ((ensureBytesLeft_spec 4 (ofBytes [0, 0, 0, 0, 0])).1).2 (by decide)⟩

/-! ## C6: seek -/

/-- C6 counterexample: `seek(+Infinity)` on a 5-byte stream sets `pos` to
`size = 5`, not to 0 as claimed for non-finite arguments (`Math.min(size, +∞)`
is the finite `size`, so the non-finite guard never fires). -/
theorem seek_posInf_counterexample :
    (seek JSNum.posInf (ofBytes [0, 0, 0, 0, 0])).pos = 5 ∧ (5 : Nat) ≠ 0 := by decide

/-- C6 amended: `seek(p)` sets `pos` to `clamp(p, 0, size)` for every non-NaN
argument — `+Infinity` clamps to `size` and `-Infinity` clamps to 0; only NaN
snaps the position to 0.  The other fields are unchanged. -/
theorem seek_spec (p : JSNum) (s : KaitaiStream) :
    ((seek p s).pos = match p with
      | JSNum.num x => (max 0 (min (s.size : Int) x)).toNat
      | JSNum.posInf => s.size
      | JSNum.negInf => 0
      | JSNum.nan => 0)
    ∧ (seek p s).data = s.data ∧ (seek p s).bits = s.bits
    ∧ (seek p s).bitsLeft = s.bitsLeft := by
  cases p <;> simp [KaitaiStream.seek, jsMin, jsMax]

/-! ## C7: processRotateLeft -/

/-- The per-byte transform applied by `processRotateLeft` with
`groupSize == 1` (so `mask = 7`). -/
def rotByte (amount : Int) (b : Nat) : Nat :=
  toUint8 (jsOr (jsAnd (jsShl (b : Int) amount) 255) (jsShr (b : Int) (jsAnd (-amount) 7)))

theorem processRotateLeft_eq_map (data : List Nat) (amount : Int) :
    processRotateLeft data amount 1 = Except.ok (data.map (rotByte amount)) := by
  unfold KaitaiStream.processRotateLeft rotByte
  norm_num

set_option maxRecDepth 100000 in
theorem rotByte_roundtrip_byte :
    ∀ a : Nat, a < 8 → ∀ b : Nat, b < 256 →
      rotByte (((8 - a) % 8 : Nat) : Int) (rotByte (a : Int) b) = b := by decide

/-- C7 counterexample: with `x = [0x80]` and `a = 1`,
`processRotateLeft(processRotateLeft(x, 1, 1), -1, 1) = [0x00] ≠ x`.
For a negative amount the JavaScript left shift uses count `-a mod 32 ≥ 25`,
so the wrap-around term is 0 and the "rotation" degenerates to a plain
bit-losing right shift. -/
theorem processRotateLeft_counterexample :
    (processRotateLeft [128] 1 1).bind (fun y => processRotateLeft y (-1) 1) =
      Except.ok [0]
    ∧ ([0] : List Nat) ≠ [128] := by decide

/-- C7 amended: for byte data and `0 ≤ a < 8`, `processRotateLeft(·, a, 1)`
is a per-byte left rotation by `a`, and the round trip holds with the
in-range inverse amount `(8 - a) % 8` in place of `-a` (negative amounts do
not produce right rotations). -/
theorem processRotateLeft_roundtrip (data : List Nat) (hd : ∀ b ∈ data, b < 256)
    (a : Nat) (ha : a < 8) :
    (processRotateLeft data (a : Int) 1).bind
      (fun y => processRotateLeft y (((8 - a) % 8 : Nat) : Int) 1) = Except.ok data := by
  have hmap : ∀ l : List Nat, (∀ b ∈ l, b < 256) →
      l.map (fun b => rotByte (((8 - a) % 8 : Nat) : Int) (rotByte (a : Int) b)) = l := by
    intro l hl
    induction l with
    | nil => rfl
    | cons x xs ih =>
      simp only [List.map_cons, List.cons.injEq]
      exact ⟨rotByte_roundtrip_byte a ha x (hl x (by simp)),
        ih (fun b hb => hl b (by simp [hb]))⟩
  rw [processRotateLeft_eq_map]
  show processRotateLeft (data.map (rotByte (a : Int))) (((8 - a) % 8 : Nat) : Int) 1 =
    Except.ok data
  rw [processRotateLeft_eq_map, List.map_map]
  exact congrArg Except.ok (hmap data hd)

/-- Witness for `processRotateLeft_roundtrip` at concrete data and `a = 3`. -/
theorem processRotateLeft_roundtrip_witness :
    (processRotateLeft [1, 128, 77] 3 1).bind
      (fun y => processRotateLeft y (((8 - 3) % 8 : Nat) : Int) 1) = Except.ok [1, 128, 77] :=
  processRotateLeft_roundtrip [1, 128, 77] (by decide) 3 (by decide)

/-! ## C1: readS8le -/

/-- C1 (code bug): `readS8le` does not implement the claimed formula with
unsigned 32-bit XOR (i.e. the exact two's-complement value).  The JavaScript
`^` yields a signed 32-bit result, so whenever the low half is `< 2^31` the
returned value is `2^32` too high.  On `FF FF FF 7F FF FF FF FF` (true value
`-2147483649`, exactly representable even in an IEEE double) the code
returns `2147483647`; on `00 00 00 00 00 00 00 80` it returns
`-9223372032559808512`, not the claimed `-9223372036854775808`. -/
theorem readS8le_failing_input :
    (readS8le (ofBytes [255, 255, 255, 127, 255, 255, 255, 255])).1 = Except.ok 2147483647
    ∧ -((((4294967295 ^^^ 4294967295) * 4294967296 + (2147483647 ^^^ 4294967295) : Nat) : Int))
        - 1 = -2147483649
    ∧ (2147483647 : Int) ≠ -2147483649
    ∧ (readS8le (ofBytes [0, 0, 0, 0, 0, 0, 0, 128])).1 = Except.ok (-9223372032559808512)
    ∧ (-9223372032559808512 : Int) ≠ -9223372036854775808 := by decide


/-! ## Lemmas about mapUint8Array and the js operators -/

theorem mapUint8Array_ok (len : Nat) (hlen : len < 2147483648) (s : KaitaiStream)
    (h : s.pos + len ≤ s.data.length) :
    mapUint8Array len s =
      (Except.ok ((s.data.drop s.pos).take len), { s with pos := s.pos + len }) := by
  unfold KaitaiStream.mapUint8Array KaitaiStream.ensureBytesLeft
  rw [toInt32_natCast len (by omega)]
  simp only [KaitaiStream.size]
  rw [if_neg (by omega)]
  simp

theorem mapUint8Array_of_error (len : Nat) (s : KaitaiStream) (e : KError)
    (h : (mapUint8Array len s).1 = Except.error e) : (mapUint8Array len s).2 = s := by
  unfold KaitaiStream.mapUint8Array KaitaiStream.ensureBytesLeft at *
  by_cases hc : (s.size : Int) < (s.pos : Int) + toInt32 len
  · simp [hc]
  · simp [hc] at h

theorem mapUint8Array_ok_shape (len : Nat) (s : KaitaiStream) (buf : List Nat)
    (h : (mapUint8Array len s).1 = Except.ok buf) :
    buf.length = (toInt32 len).toNat
    ∧ (mapUint8Array len s).2 = { s with pos := s.pos + (toInt32 len).toNat } := by
  by_cases hc : (s.size : Int) < (s.pos : Int) + toInt32 len
  · exfalso
    simp [KaitaiStream.mapUint8Array, KaitaiStream.ensureBytesLeft, hc] at h
  · have hres : mapUint8Array len s =
        (Except.ok ((s.data.drop s.pos).take (toInt32 len).toNat),
         { s with pos := s.pos + (toInt32 len).toNat }) := by
      simp [KaitaiStream.mapUint8Array, KaitaiStream.ensureBytesLeft, hc]
    rw [hres] at h
    simp only [Except.ok.injEq] at h
    refine ⟨?_, by rw [hres]⟩
    simp only [KaitaiStream.size] at hc
    simp only [← h, List.length_take, List.length_drop]
    omega

theorem jsShrU_zero (x : Int) : jsShrU x 0 = ((toUint32 x : Nat) : Int) := by
  unfold jsShrU shiftCount
  norm_num [toUint32]

theorem jsAnd_ffffffff (u : Nat) (hu : u < 4294967296) :
    jsAnd (u : Int) 4294967295 = sInt32 u := by
  unfold jsAnd
  rw [toUint32_natCast u hu, show toUint32 4294967295 = 2 ^ 32 - 1 from rfl,
    Nat.and_pow_two_sub_one_eq_mod, Nat.mod_eq_of_lt (by omega)]

theorem jsAnd_ffffffff_sInt32 (u : Nat) (hu : u < 4294967296) :
    jsAnd (sInt32 u) 4294967295 = sInt32 u := by
  unfold jsAnd
  rw [toUint32_sInt32 u hu, show toUint32 4294967295 = 2 ^ 32 - 1 from rfl,
    Nat.and_pow_two_sub_one_eq_mod, Nat.mod_eq_of_lt (by omega)]

theorem jsAnd_zero (x : Int) : jsAnd x 0 = 0 := by
  unfold jsAnd
  rw [show toUint32 0 = 0 from rfl, Nat.and_zero]
  rfl

theorem toInt32_sInt32 (u : Nat) (hu : u < 4294967296) : toInt32 (sInt32 u) = sInt32 u := by
  unfold toInt32
  rw [toUint32_sInt32 u hu]

theorem jsShr_32 (x : Int) : jsShr x 32 = toInt32 x := by
  unfold jsShr shiftCount
  rw [show toUint32 32 % 32 = 0 from rfl]
  norm_num [Int.fdiv_one]

/-! ## Fill-loop lemmas -/

theorem beFillOne_sInt32 (st : KaitaiStream) (u b : Nat) (hbits : st.bits = sInt32 u)
    (hu : u < 16777216) (hb : b < 256) :
    beFillOne st b = { st with bits := sInt32 (u * 256 + b), bitsLeft := st.bitsLeft + 8 } := by
  unfold KaitaiStream.beFillOne jsShl jsOr shiftCount
  rw [hbits, toUint32_sInt32 u (by omega),
    show toUint32 8 % 32 = 8 from rfl, Nat.shiftLeft_eq,
    Nat.mod_eq_of_lt (show u * 2 ^ 8 < 4294967296 by omega),
    toUint32_sInt32 (u * 2 ^ 8) (by omega), toUint32_natCast b (by omega),
    mul_two_pow_lor u (show b < 2 ^ 8 by omega)]
  norm_num

theorem leFillOne_sInt32 (st : KaitaiStream) (u b k : Nat) (hbits : st.bits = sInt32 u)
    (hlk : st.bitsLeft = (k : Int)) (hu : u < 2 ^ k) (hb : b < 256) (hk : k ≤ 24) :
    leFillOne st b = { st with bits := sInt32 (b * 2 ^ k + u), bitsLeft := (k : Int) + 8 } := by
  have hpow : (2 : Nat) ^ k ≤ 2 ^ 24 := Nat.pow_le_pow_right (by norm_num) hk
  have hbk : b * 2 ^ k < 4294967296 := by
    have := Nat.mul_le_mul (show b ≤ 255 by omega) hpow
    omega
  unfold KaitaiStream.leFillOne jsShl jsOr shiftCount
  rw [hbits, hlk, toUint32_natCast b (by omega),
    show ∀ m : Nat, toUint32 (m : Int) % 32 = m % 32 from fun m => by unfold toUint32; omega,
    Nat.mod_eq_of_lt (show k < 32 by omega), Nat.shiftLeft_eq,
    Nat.mod_eq_of_lt hbk, toUint32_sInt32 u (by omega), toUint32_sInt32 (b * 2 ^ k) hbk,
    Nat.lor_comm, mul_two_pow_lor b hu]

theorem beFill_aligned (d : List Nat) (p : Nat) (b0 b1 b2 b3 : Nat)
    (h0 : b0 < 256) (h1 : b1 < 256) (h2 : b2 < 256) (h3 : b3 < 256) :
    [b0, b1, b2, b3].foldl beFillOne ⟨d, p, 0, 0⟩ =
      ⟨d, p, sInt32 ((((b0 * 256 + b1) * 256 + b2) * 256 + b3 : Nat)), 32⟩ := by
  simp only [List.foldl_cons, List.foldl_nil]
  rw [beFillOne_sInt32 _ 0 b0 rfl (by omega) h0]
  rw [beFillOne_sInt32 _ (0 * 256 + b0) b1 rfl (by omega) h1]
  rw [beFillOne_sInt32 _ ((0 * 256 + b0) * 256 + b1) b2 rfl (by omega) h2]
  rw [beFillOne_sInt32 _ (((0 * 256 + b0) * 256 + b1) * 256 + b2) b3 rfl (by omega) h3]
  norm_num

theorem leFill_aligned (d : List Nat) (p : Nat) (b0 b1 b2 b3 : Nat)
    (h0 : b0 < 256) (h1 : b1 < 256) (h2 : b2 < 256) (h3 : b3 < 256) :
    [b0, b1, b2, b3].foldl leFillOne ⟨d, p, 0, 0⟩ =
      ⟨d, p, sInt32 ((((b3 * 256 + b2) * 256 + b1) * 256 + b0 : Nat)), 32⟩ := by
  simp only [List.foldl_cons, List.foldl_nil]
  rw [leFillOne_sInt32 _ 0 b0 0 rfl rfl (by norm_num) h0 (by norm_num)]
  rw [leFillOne_sInt32 _ (b0 * 2 ^ 0 + 0) b1 8 rfl (by norm_num) (by omega) h1 (by norm_num)]
  rw [leFillOne_sInt32 _ (b1 * 2 ^ 8 + (b0 * 2 ^ 0 + 0)) b2 16 rfl (by norm_num)
    (by omega) h2 (by norm_num)]
  rw [leFillOne_sInt32 _ (b2 * 2 ^ 16 + (b1 * 2 ^ 8 + (b0 * 2 ^ 0 + 0))) b3 24 rfl
    (by norm_num) (by omega) h3 (by norm_num)]
  have heq : b3 * 2 ^ 24 + (b2 * 2 ^ 16 + (b1 * 2 ^ 8 + (b0 * 2 ^ 0 + 0))) =
      ((b3 * 256 + b2) * 256 + b1) * 256 + b0 := by ring
  rw [heq]
  norm_num

/-! ## C2: 32-bit bit reads -/

/-- C2 counterexample: reading 32 bits from four `0xFF` bytes returns `-1`
(the JavaScript `&` with the mask makes the result a signed 32-bit value),
not the claimed nonnegative `4294967295`; moreover from a reachable state
with `bitsLeft = 7` the 32-bit read does not even return the next 32 bits
mod `2^32` (accumulator overflow), yielding 0 instead of `0xFE000000`. -/
theorem readBitsInt32_counterexample :
    (readBitsIntBe 32 (ofBytes [255, 255, 255, 255])).1 = Except.ok (-1)
    ∧ (readBitsIntLe 32 (ofBytes [255, 255, 255, 255])).1 = Except.ok (-1)
    ∧ ¬ (0 : Int) ≤ -1
    ∧ (-1 : Int) ≠ 4294967295
    ∧ (readBitsIntBe 1 (ofBytes [255, 0, 0, 0, 0])).2 = ⟨[255, 0, 0, 0, 0], 1, 127, 7⟩
    ∧ (readBitsIntBe 32 (⟨[255, 0, 0, 0, 0], 1, 127, 7⟩ : KaitaiStream)).1 = Except.ok 0
    ∧ (0 : Int) ≠ 4261412864 := by decide

/-- C2 amended: from a byte-aligned state (`bits = 0`, `bitsLeft = 0`) with
at least 4 bytes available, `readBitsIntBe 32` and `readBitsIntLe 32`
return the full 32-bit value reduced to a *signed* 32-bit integer
(`sInt32`, i.e. the value mod `2^32` taken in `[-2^31, 2^31)`), not a
nonnegative value in `[0, 2^32)`. -/
theorem readBitsInt32_spec (s : KaitaiStream) (hb : s.bits = 0) (hl : s.bitsLeft = 0)
    (b0 b1 b2 b3 : Nat) (rest : List Nat)
    (hbytes : s.data.drop s.pos = b0 :: b1 :: b2 :: b3 :: rest)
    (h0 : b0 < 256) (h1 : b1 < 256) (h2 : b2 < 256) (h3 : b3 < 256) :
    readBitsIntBe 32 s =
      (Except.ok (sInt32 (((b0 * 256 + b1) * 256 + b2) * 256 + b3)),
       { s with pos := s.pos + 4, bits := 0, bitsLeft := 0 })
    ∧ readBitsIntLe 32 s =
      (Except.ok (sInt32 (((b3 * 256 + b2) * 256 + b1) * 256 + b0)),
       { s with pos := s.pos + 4, bits := sInt32 (((b3 * 256 + b2) * 256 + b1) * 256 + b0), bitsLeft := 0 }) := by
  obtain ⟨d, p, bts, bl⟩ := s
  dsimp only at hb hl hbytes ⊢
  subst hb
  subst hl
  have hB : ((b0 * 256 + b1) * 256 + b2) * 256 + b3 < 4294967296 := by omega
  have hB' : ((b3 * 256 + b2) * 256 + b1) * 256 + b0 < 4294967296 := by omega
  have hlen : p + 4 ≤ d.length := by
    have hc := congrArg List.length hbytes
    simp only [List.length_drop, List.length_cons] at hc
    omega
  have htake : (d.drop p).take 4 = [b0, b1, b2, b3] := by rw [hbytes]; rfl
  have hread : readBytes 4 (⟨d, p, 0, 0⟩ : KaitaiStream) =
      (Except.ok [b0, b1, b2, b3], ⟨d, p + 4, 0, 0⟩) := by
    unfold KaitaiStream.readBytes
    rw [mapUint8Array_ok 4 (by norm_num) _ hlen]
    dsimp only
    rw [htake]
  constructor
  · unfold KaitaiStream.readBitsIntBe
    norm_num
    rw [show ((Int.toNat 32 + 7) / 8 : Nat) = 4 from rfl, hread]
    dsimp only
    rw [beFill_aligned d (p + 4) b0 b1 b2 b3 h0 h1 h2 h3]
    dsimp only
    norm_num
    rw [jsShrU_zero, toUint32_sInt32 _ hB, jsAnd_ffffffff _ hB,
      show jsShl 1 0 - 1 = 0 from rfl, jsAnd_zero]
    exact ⟨rfl, rfl⟩
  · unfold KaitaiStream.readBitsIntLe
    norm_num
    rw [show ((Int.toNat 32 + 7) / 8 : Nat) = 4 from rfl, hread]
    dsimp only
    rw [leFill_aligned d (p + 4) b0 b1 b2 b3 h0 h1 h2 h3]
    dsimp only
    norm_num
    rw [jsAnd_ffffffff_sInt32 _ hB', jsShr_32, toInt32_sInt32 _ hB']
    exact ⟨rfl, rfl⟩

/-- Witness for `readBitsInt32_spec` on the concrete bytes 01 02 03 04. -/
theorem readBitsInt32_spec_witness :
    readBitsIntBe 32 (ofBytes [1, 2, 3, 4]) = (Except.ok 16909060, ⟨[1, 2, 3, 4], 4, 0, 0⟩)
    ∧ readBitsIntLe 32 (ofBytes [1, 2, 3, 4]) =
        (Except.ok 67305985, ⟨[1, 2, 3, 4], 4, 67305985, 0⟩) := by
  exact ⟨(readBitsInt32_spec (ofBytes [1, 2, 3, 4]) rfl rfl 1 2 3 4 [] rfl (by decide)
      (by decide) (by decide) (by decide)).1,
    (readBitsInt32_spec (ofBytes [1, 2, 3, 4]) rfl rfl 1 2 3 4 [] rfl (by decide)
      (by decide) (by decide) (by decide)).2⟩

/-! ## C3: readBytesTerm -/

/-- C3 counterexample: buffer `41 00 42`, terminator 0, `include = true`,
`consume = false`: the run is `[0x41, 0x00]` (terminator included) but `pos`
advances to 2 = `i + 1`, not the claimed `i = 1` — `mapUint8Array(i + 1)`
advances the cursor over everything it returns. -/
theorem readBytesTerm_counterexample :
    readBytesTerm 0 true false false (ofBytes [65, 0, 66]) =
      (Except.ok [65, 0], ⟨[65, 0, 66], 2, 0, 0⟩)
    ∧ (2 : Nat) ≠ 1 := by decide

/-- C3 amended: when the terminator is found at offset `i` from `pos`, the
returned run is the next `i` bytes (`i + 1` bytes if `include`), and `pos`
advances by `i`, plus 1 if `include`, plus an additional 1 iff `consume`. -/
theorem readBytesTerm_found_spec (s : KaitaiStream) (term : Nat)
    (inc consume eosError : Bool) (i : Nat)
    (hfind : (s.data.drop s.pos).findIdx (fun b => b == term) = i)
    (hi : i < s.size - s.pos) (hlen : s.data.length < 2147483648) :
    readBytesTerm term inc consume eosError s =
      (Except.ok ((s.data.drop s.pos).take (i + if inc then 1 else 0)),
       { s with pos := s.pos + i + (if inc then 1 else 0) + (if consume then 1 else 0) }) := by
  obtain ⟨d, p, bts, bl⟩ := s
  dsimp only at hfind hi hlen ⊢
  simp only [KaitaiStream.size, KaitaiStream.readBytesTerm] at hi ⊢
  rw [hfind, if_neg (by omega)]
  cases inc with
  | true =>
    rw [mapUint8Array_ok (i + 1) (by omega) _ (show p + (i + 1) ≤ d.length by omega)]
    cases consume with
    | true =>
      simp
      omega
    | false =>
      simp
      omega
  | false =>
    rw [mapUint8Array_ok i (by omega) _ (show p + i ≤ d.length by omega)]
    cases consume with
    | true =>
      simp
    | false =>
      simp

/-- Witness for `readBytesTerm_found_spec`: buffer `41 42 43 00 44`,
terminator 0, include = false, consume = true (scenario S5 of the spec). -/
theorem readBytesTerm_found_spec_witness :
    readBytesTerm 0 false true false (ofBytes [65, 66, 67, 0, 68]) =
      (Except.ok [65, 66, 67], ⟨[65, 66, 67, 0, 68], 4, 0, 0⟩) := by
  exact readBytesTerm_found_spec (ofBytes [65, 66, 67, 0, 68]) 0 false true false 3
    (by decide) (by decide) (by decide)

/-! ## C10: zero-width bit reads -/

theorem jsZero_and (x : Int) : jsAnd 0 x = 0 := by
  unfold jsAnd
  rw [show toUint32 0 = 0 from rfl, Nat.zero_and]
  rfl

/-- C10 counterexample: the state reached by `readBitsIntLe(25)` on four
`0xFF` bytes has `bits = -1`, `bitsLeft = 7`; `readBitsIntBe(0)` on it
succeeds with 0 but REWRITES `bits` to `-1 & ((1 << 7) - 1) = 127`, so the
claim "without changing pos, bits, or bitsLeft" fails for `bits`. -/
theorem readBitsIntZero_counterexample :
    (readBitsIntLe 25 (ofBytes [255, 255, 255, 255])).2 = ⟨[255, 255, 255, 255], 4, -1, 7⟩
    ∧ (readBitsIntBe 0 (⟨[255, 255, 255, 255], 4, -1, 7⟩ : KaitaiStream)).1 = Except.ok 0
    ∧ (readBitsIntBe 0 (⟨[255, 255, 255, 255], 4, -1, 7⟩ : KaitaiStream)).2 =
        ⟨[255, 255, 255, 255], 4, 127, 7⟩
    ∧ (127 : Int) ≠ -1 := by decide

/-- C10 amended: with `bitsLeft ≥ 0`, both zero-width reads succeed with 0,
consume no bytes, and leave `pos` and `bitsLeft` unchanged.
`readBitsIntLe(0)` leaves `bits` unchanged whenever it is a proper int32
value (always, for states the runtime itself produces);
`readBitsIntBe(0)` re-masks the accumulator to its low `bitsLeft` bits,
which is the identity on aligned states (`bits = 0`) and generally on
states with no stray high bits, but not on states left by LE reads. -/
theorem readBitsIntZero_spec (s : KaitaiStream) (h0 : 0 ≤ s.bitsLeft) :
    (readBitsIntBe 0 s).1 = Except.ok 0
    ∧ (readBitsIntBe 0 s).2 = { s with bits := jsAnd s.bits (jsShl 1 s.bitsLeft - 1) }
    ∧ (readBitsIntLe 0 s).1 = Except.ok 0
    ∧ (readBitsIntLe 0 s).2 = { s with bits := jsShr s.bits 0 }
    ∧ (toInt32 s.bits = s.bits → (readBitsIntLe 0 s).2 = s)
    ∧ (s.bits = 0 → (readBitsIntBe 0 s).2 = s) := by
  obtain ⟨d, p, bts, bl⟩ := s
  dsimp only at h0 ⊢
  have hbe : readBitsIntBe 0 (⟨d, p, bts, bl⟩ : KaitaiStream) =
      (Except.ok 0, ⟨d, p, jsAnd bts (jsShl 1 bl - 1), bl⟩) := by
    unfold KaitaiStream.readBitsIntBe
    dsimp only
    rw [if_neg (show ¬ (0 : Int) < 0 - bl by omega)]
    dsimp only
    rw [if_neg (show ¬ (32 : Int) < 0 by norm_num),
      if_neg (show ¬ (0 : Int) = 32 by norm_num),
      show jsShl 1 (0 : Int) - 1 = 0 from rfl, jsAnd_zero, sub_zero]
  have hle : readBitsIntLe 0 (⟨d, p, bts, bl⟩ : KaitaiStream) =
      (Except.ok 0, ⟨d, p, jsShr bts 0, bl⟩) := by
    unfold KaitaiStream.readBitsIntLe
    dsimp only
    rw [if_neg (show ¬ (0 : Int) < 0 - bl by omega)]
    dsimp only
    rw [if_neg (show ¬ (32 : Int) < 0 by norm_num),
      if_neg (show ¬ (0 : Int) = 32 by norm_num),
      show jsShl 1 (0 : Int) - 1 = 0 from rfl, jsAnd_zero, sub_zero]
  refine ⟨by rw [hbe], by rw [hbe], by rw [hle], by rw [hle], ?_, ?_⟩
  · intro hint
    rw [hle]
    have : jsShr bts 0 = bts := by
      unfold jsShr
      rw [show shiftCount 0 = 0 from rfl]
      norm_num [Int.fdiv_one]
      exact hint
    rw [this]
  · intro hz
    rw [hbe, hz, jsZero_and]

/-- Witness for `readBitsIntZero_spec` on an empty (at-EOF) stream. -/
theorem readBitsIntZero_spec_witness :
    (readBitsIntBe 0 (ofBytes [])).1 = Except.ok 0
    ∧ (readBitsIntBe 0 (ofBytes [])).2 = ofBytes []
    ∧ (readBitsIntLe 0 (ofBytes [])).1 = Except.ok 0
    ∧ (readBitsIntLe 0 (ofBytes [])).2 = ofBytes [] :=
  ⟨(readBitsIntZero_spec (ofBytes []) (by decide)).1,
   (readBitsIntZero_spec (ofBytes []) (by decide)).2.2.2.2.2 rfl,
   (readBitsIntZero_spec (ofBytes []) (by decide)).2.2.1,
   (readBitsIntZero_spec (ofBytes []) (by decide)).2.2.2.2.1 rfl⟩

/-! ## C5: ensureFixedContents -/

/-- C5 (confirmed): `ensureFixedContents(expected)` reads
`expected.length` bytes; if any read byte differs from `expected` it
fails with `UnexpectedDataError(expected, actual)`; on success it
returns the bytes read (which equal `expected`).  A stream shorter than
`expected.length` makes the underlying read fail with `EOFError` before
any bytes are produced, so the length-mismatch arm can only ever fire
with the unexpected-content error as claimed (vacuously). -/
theorem ensureFixedContents_spec (expected : List Nat) (s : KaitaiStream)
    (hlen : expected.length < 2147483648) :
    (s.pos + expected.length ≤ s.data.length →
      ((s.data.drop s.pos).take expected.length = expected →
        ensureFixedContents expected s =
          (Except.ok expected, { s with pos := s.pos + expected.length }))
      ∧ ((s.data.drop s.pos).take expected.length ≠ expected →
        ensureFixedContents expected s =
          (Except.error (KError.unexpectedDataError expected
            ((s.data.drop s.pos).take expected.length)),
           { s with pos := s.pos + expected.length })))
    ∧ (s.data.length < s.pos + expected.length →
        ensureFixedContents expected s =
          (Except.error (KError.eofError expected.length
            ((s.data.length : Int) - (s.pos : Int))), s)) := by
  constructor
  · intro havail
    have hread : readBytes expected.length s =
        (Except.ok ((s.data.drop s.pos).take expected.length),
         { s with pos := s.pos + expected.length }) := by
      unfold KaitaiStream.readBytes
      exact mapUint8Array_ok expected.length hlen s havail
    have hal : ((s.data.drop s.pos).take expected.length).length = expected.length := by
      simp only [List.length_take, List.length_drop]
      omega
    constructor
    · intro heq
      unfold KaitaiStream.ensureFixedContents
      rw [hread]
      dsimp only
      rw [heq]
      simp
    · intro hne
      unfold KaitaiStream.ensureFixedContents
      rw [hread]
      dsimp only
      rw [if_neg (by simp [hal]), if_pos hne]
  · intro hover
    unfold KaitaiStream.ensureFixedContents KaitaiStream.readBytes KaitaiStream.mapUint8Array
      KaitaiStream.ensureBytesLeft
    rw [toInt32_natCast expected.length (by omega)]
    simp only [KaitaiStream.size]
    rw [if_pos (by omega)]

/-- Witness for `ensureFixedContents_spec`: a match, a byte mismatch, and
a short stream. -/
theorem ensureFixedContents_spec_witness :
    ensureFixedContents [1, 2] (ofBytes [1, 2, 9]) = (Except.ok [1, 2], ⟨[1, 2, 9], 2, 0, 0⟩)
    ∧ ensureFixedContents [1, 9] (ofBytes [1, 2, 3]) =
        (Except.error (KError.unexpectedDataError [1, 9] [1, 2]), ⟨[1, 2, 3], 2, 0, 0⟩)
    ∧ ensureFixedContents [1, 2, 3, 4] (ofBytes [1, 2]) =
        (Except.error (KError.eofError 4 2), ofBytes [1, 2]) := by
  refine ⟨((ensureFixedContents_spec [1, 2] (ofBytes [1, 2, 9]) (by decide)).1
      (by decide)).1 (by decide),
    ((ensureFixedContents_spec [1, 9] (ofBytes [1, 2, 3]) (by decide)).1
      (by decide)).2 (by decide),
    (ensureFixedContents_spec [1, 2, 3, 4] (ofBytes [1, 2]) (by decide)).2 (by decide)⟩

/-! ## C9: failures leave the stream state untouched -/

theorem readU4le_ok (s : KaitaiStream) (h : s.pos + 4 ≤ s.data.length) :
    readU4le s = (Except.ok (getU32le s s.pos), { s with pos := s.pos + 4 }) := by
  unfold KaitaiStream.readU4le KaitaiStream.ensureBytesLeft
  simp only [KaitaiStream.size]
  rw [if_neg (by omega)]

/-- C9 (confirmed): every failing reader operation leaves `(pos, bits,
bitsLeft)` — indeed the whole state — exactly as before the call:
`ensureBytesLeft` never mutates; `mapUint8Array`/`readBytes` check before
advancing; `readU4le`/`readS8le` fail only in the initial bounds check;
the bit readers fail only on `n > 32` or on the byte borrow, both before
any mutation; `readBytesTerm` throws the missing-terminator error before
mapping; `ensureFixedContents` preserves the state whenever it fails with
the end-of-stream error. -/
theorem readerFailure_preserves_state :
    (∀ (len : Int) (s : KaitaiStream), (ensureBytesLeft len s).2 = s)
    ∧ (∀ (len : Nat) (s : KaitaiStream) (e : KError),
        (mapUint8Array len s).1 = Except.error e → (mapUint8Array len s).2 = s)
    ∧ (∀ (s : KaitaiStream) (e : KError),
        (readU4le s).1 = Except.error e → (readU4le s).2 = s)
    ∧ (∀ (s : KaitaiStream) (e : KError),
        (readS8le s).1 = Except.error e → (readS8le s).2 = s)
    ∧ (∀ (n : Int) (s : KaitaiStream) (e : KError),
        (readBitsIntBe n s).1 = Except.error e → (readBitsIntBe n s).2 = s)
    ∧ (∀ (n : Int) (s : KaitaiStream) (e : KError),
        (readBitsIntLe n s).1 = Except.error e → (readBitsIntLe n s).2 = s)
    ∧ (∀ (t : Nat) (inc consume eosError : Bool) (s : KaitaiStream) (e : KError),
        (readBytesTerm t inc consume eosError s).1 = Except.error e →
          (readBytesTerm t inc consume eosError s).2 = s)
    ∧ (∀ (expected : List Nat) (s : KaitaiStream) (req avail : Int),
        (ensureFixedContents expected s).1 = Except.error (KError.eofError req avail) →
          (ensureFixedContents expected s).2 = s) := by
  refine ⟨?_, ?_, ?_, ?_, ?_, ?_, ?_, ?_⟩
  · intro len s
    unfold KaitaiStream.ensureBytesLeft
    split <;> rfl
  · exact mapUint8Array_of_error
  · intro s e h
    unfold KaitaiStream.readU4le KaitaiStream.ensureBytesLeft at h ⊢
    by_cases hc : (s.size : Int) < (s.pos : Int) + 4
    · simp [hc]
    · simp [hc] at h
  · intro s e h
    unfold KaitaiStream.readS8le at h ⊢
    by_cases h8 : (s.size : Int) < (s.pos : Int) + 8
    · simp [KaitaiStream.ensureBytesLeft, h8]
    · simp only [KaitaiStream.ensureBytesLeft, h8, if_false] at h ⊢
      simp only [KaitaiStream.size] at h8
      have h4a : readU4le s = (Except.ok (getU32le s s.pos), { s with pos := s.pos + 4 }) :=
        readU4le_ok s (by omega)
      have h4b : readU4le ({ s with pos := s.pos + 4 } : KaitaiStream) =
          (Except.ok (getU32le ({ s with pos := s.pos + 4 } : KaitaiStream) (s.pos + 4)),
           { s with pos := s.pos + 4 + 4 }) :=
        readU4le_ok _ (by dsimp only; omega)
      rw [h4a] at h
      dsimp only at h
      rw [h4b] at h
      dsimp only at h
      split at h <;> simp at h
  · intro n s e h
    unfold KaitaiStream.readBitsIntBe at h ⊢
    by_cases h32 : (32 : Int) < n
    · simp [h32]
    · simp only [h32, if_false] at h ⊢
      by_cases hneed : (0 : Int) < n - s.bitsLeft
      · simp only [hneed, if_true] at h ⊢
        rcases hr : readBytes (((n - s.bitsLeft).toNat + 7) / 8) s with ⟨r1, r2⟩
        cases r1 with
        | error e' => simp [hr]
        | ok buf => simp [hr] at h
      · simp only [hneed, if_false] at h ⊢
        simp at h
  · intro n s e h
    unfold KaitaiStream.readBitsIntLe at h ⊢
    by_cases h32 : (32 : Int) < n
    · simp [h32]
    · simp only [h32, if_false] at h ⊢
      by_cases hneed : (0 : Int) < n - s.bitsLeft
      · simp only [hneed, if_true] at h ⊢
        rcases hr : readBytes (((n - s.bitsLeft).toNat + 7) / 8) s with ⟨r1, r2⟩
        cases r1 with
        | error e' => simp [hr]
        | ok buf => simp [hr] at h
      · simp only [hneed, if_false] at h ⊢
        simp at h
  · intro t inc consume eosError s e h
    unfold KaitaiStream.readBytesTerm at h ⊢
    by_cases hi : (s.data.drop s.pos).findIdx (fun b => b == t) = s.size - s.pos
    · simp only [hi, if_true] at h ⊢
      cases eosError with
      | true => simp
      | false =>
        simp only [Bool.false_eq_true, if_false] at h ⊢
        exact mapUint8Array_of_error _ s e h
    · simp only [hi, if_false] at h ⊢
      cases inc with
      | true =>
        rcases hm : mapUint8Array ((s.data.drop s.pos).findIdx (fun b => b == t) + 1) s
          with ⟨r1, r2⟩
        cases r1 with
        | error e' =>
          simp only [hm] at h ⊢
          have := mapUint8Array_of_error _ s e' (by rw [hm])
          rw [hm] at this
          exact this
        | ok buf => simp [hm] at h
      | false =>
        rcases hm : mapUint8Array ((s.data.drop s.pos).findIdx (fun b => b == t)) s
          with ⟨r1, r2⟩
        cases r1 with
        | error e' =>
          simp only [hm] at h ⊢
          have := mapUint8Array_of_error _ s e' (by rw [hm])
          rw [hm] at this
          exact this
        | ok buf => simp [hm] at h
  · intro expected s req avail h
    unfold KaitaiStream.ensureFixedContents at h ⊢
    rcases hr : readBytes expected.length s with ⟨r1, r2⟩
    cases r1 with
    | error e' =>
      simp only [hr] at h ⊢
      have := mapUint8Array_of_error expected.length s e' (by rw [show mapUint8Array expected.length s = (Except.error e', r2) from hr])
      rw [show mapUint8Array expected.length s = (Except.error e', r2) from hr] at this
      exact this
    | ok actual =>
      simp only [hr] at h
      split at h
      · simp at h
      · split at h
        · simp at h
        · simp at h

/-- Witness for `readerFailure_preserves_state` at concrete failing calls:
an out-of-range bit count, a missing terminator with `eosError`, and a
too-short 64-bit read. -/
theorem readerFailure_preserves_state_witness :
    (readBitsIntBe 33 (ofBytes [])).2 = ofBytes []
    ∧ (readBytesTerm 7 false false true (ofBytes [1, 2])).2 = ofBytes [1, 2]
    ∧ (readS8le (ofBytes [1, 2, 3])).2 = ofBytes [1, 2, 3] :=
  ⟨readerFailure_preserves_state.2.2.2.2.1 33 (ofBytes []) (KError.err
      ("readBitsIntBe: the maximum supported bit length is 32 (tried to read "
        ++ toString (33 : Int) ++ " bits)")) (by decide),
   readerFailure_preserves_state.2.2.2.2.2.2.1 7 false false true (ofBytes [1, 2]) (KError.err
      ("End of stream reached, but no terminator " ++ toString 7 ++ " found")) (by decide),
   readerFailure_preserves_state.2.2.2.1 (ofBytes [1, 2, 3])
      (KError.eofError 8 3) (by decide)⟩

/-! ## C4: the bitsLeft invariant -/

theorem ensureBytesLeft_snd (len : Int) (s : KaitaiStream) : (ensureBytesLeft len s).2 = s := by
  unfold KaitaiStream.ensureBytesLeft
  split <;> rfl

theorem mapUint8Array_bitsLeft (len : Nat) (s : KaitaiStream) :
    (mapUint8Array len s).2.bitsLeft = s.bitsLeft := by
  unfold KaitaiStream.mapUint8Array KaitaiStream.ensureBytesLeft
  by_cases hc : (s.size : Int) < (s.pos : Int) + toInt32 len
  · simp [hc]
  · simp [hc]

theorem readU4le_bitsLeft (s : KaitaiStream) : (readU4le s).2.bitsLeft = s.bitsLeft := by
  unfold KaitaiStream.readU4le KaitaiStream.ensureBytesLeft
  by_cases hc : (s.size : Int) < (s.pos : Int) + 4
  · simp [hc]
  · simp [hc]

theorem readS8le_bitsLeft (s : KaitaiStream) : (readS8le s).2.bitsLeft = s.bitsLeft := by
  unfold KaitaiStream.readS8le
  by_cases h8 : (s.size : Int) < (s.pos : Int) + 8
  · simp [KaitaiStream.ensureBytesLeft, h8]
  · simp only [KaitaiStream.ensureBytesLeft, h8, if_false]
    rcases h1 : readU4le s with ⟨r1, t1⟩
    have hb1 := readU4le_bitsLeft s
    rw [h1] at hb1
    cases r1 with
    | error e => simpa using hb1
    | ok v1 =>
      dsimp only
      rcases h2 : readU4le t1 with ⟨r2, t2⟩
      have hb2 := readU4le_bitsLeft t1
      rw [h2] at hb2
      cases r2 with
      | error e => simpa using hb2.trans hb1
      | ok v2 =>
        dsimp only
        split <;> simpa using hb2.trans hb1

theorem readBytesTerm_bitsLeft (t : Nat) (inc consume eosError : Bool) (s : KaitaiStream) :
    (readBytesTerm t inc consume eosError s).2.bitsLeft = s.bitsLeft := by
  unfold KaitaiStream.readBytesTerm
  by_cases hi : (s.data.drop s.pos).findIdx (fun b => b == t) = s.size - s.pos
  · simp only [hi, if_true]
    cases eosError with
    | true => rfl
    | false => exact mapUint8Array_bitsLeft _ s
  · simp only [hi, if_false]
    cases inc with
    | true =>
      rcases hm : mapUint8Array ((s.data.drop s.pos).findIdx (fun b => b == t) + 1) s
        with ⟨r1, r2⟩
      have hb := mapUint8Array_bitsLeft ((s.data.drop s.pos).findIdx (fun b => b == t) + 1) s
      rw [hm] at hb
      cases r1 with
      | error e => simpa using hb
      | ok buf => cases consume <;> simpa using hb
    | false =>
      rcases hm : mapUint8Array ((s.data.drop s.pos).findIdx (fun b => b == t)) s
        with ⟨r1, r2⟩
      have hb := mapUint8Array_bitsLeft ((s.data.drop s.pos).findIdx (fun b => b == t)) s
      rw [hm] at hb
      cases r1 with
      | error e => simpa using hb
      | ok buf => cases consume <;> simpa using hb

theorem ensureFixedContents_bitsLeft (expected : List Nat) (s : KaitaiStream) :
    (ensureFixedContents expected s).2.bitsLeft = s.bitsLeft := by
  unfold KaitaiStream.ensureFixedContents
  rcases hr : readBytes expected.length s with ⟨r1, r2⟩
  have hb := mapUint8Array_bitsLeft expected.length s
  rw [show mapUint8Array expected.length s = (r1, r2) from hr] at hb
  cases r1 with
  | error e => simpa using hb
  | ok actual =>
    dsimp only
    split
    · simpa using hb
    · split <;> simpa using hb

theorem foldl_beFillOne_bitsLeft (buf : List Nat) (st : KaitaiStream) :
    (buf.foldl beFillOne st).bitsLeft = st.bitsLeft + 8 * buf.length := by
  induction buf generalizing st with
  | nil => simp
  | cons b tl ih =>
    simp only [List.foldl_cons, List.length_cons, ih]
    dsimp only [KaitaiStream.beFillOne]
    push_cast
    ring

theorem foldl_leFillOne_bitsLeft (buf : List Nat) (st : KaitaiStream) :
    (buf.foldl leFillOne st).bitsLeft = st.bitsLeft + 8 * buf.length := by
  induction buf generalizing st with
  | nil => simp
  | cons b tl ih =>
    simp only [List.foldl_cons, List.length_cons, ih]
    dsimp only [KaitaiStream.leFillOne]
    push_cast
    ring

theorem readBytes_ok_small (k : Nat) (hk : k < 2147483648) (s : KaitaiStream) (buf : List Nat)
    (r2 : KaitaiStream) (hr : readBytes k s = (Except.ok buf, r2)) :
    buf.length = k ∧ r2 = { s with pos := s.pos + k } := by
  have h1 : (mapUint8Array k s).1 = Except.ok buf := by
    rw [show mapUint8Array k s = (Except.ok buf, r2) from hr]
  have hshape := mapUint8Array_ok_shape k s buf h1
  rw [toInt32_natCast k (by omega)] at hshape
  have htn : ((k : Int)).toNat = k := by omega
  rw [htn] at hshape
  refine ⟨hshape.1, ?_⟩
  have h2 := hshape.2
  rw [show mapUint8Array k s = (Except.ok buf, r2) from hr] at h2
  exact h2

theorem readBitsIntBe_bitsLeft_bound (n : Int) (h0 : 0 ≤ n) (h32 : n ≤ 32) (s : KaitaiStream)
    (hs0 : 0 ≤ s.bitsLeft) (hs7 : s.bitsLeft ≤ 7) :
    0 ≤ (readBitsIntBe n s).2.bitsLeft ∧ (readBitsIntBe n s).2.bitsLeft ≤ 7 := by
  unfold KaitaiStream.readBitsIntBe
  rw [if_neg (show ¬ (32 : Int) < n by omega)]
  by_cases hneed : (0 : Int) < n - s.bitsLeft
  · simp only [hneed, if_true]
    rcases hr : readBytes (((n - s.bitsLeft).toNat + 7) / 8) s with ⟨r1, r2⟩
    cases r1 with
    | error e =>
      simp only [hr]
      exact ⟨hs0, hs7⟩
    | ok buf =>
      have hsmall := readBytes_ok_small (((n - s.bitsLeft).toNat + 7) / 8) (by omega) s buf r2 hr
      simp only [hr]
      rw [foldl_beFillOne_bitsLeft, hsmall.1, hsmall.2]
      dsimp only
      omega
  · simp only [hneed, if_false]
    omega

theorem readBitsIntLe_bitsLeft_bound (n : Int) (h0 : 0 ≤ n) (h32 : n ≤ 32) (s : KaitaiStream)
    (hs0 : 0 ≤ s.bitsLeft) (hs7 : s.bitsLeft ≤ 7) :
    0 ≤ (readBitsIntLe n s).2.bitsLeft ∧ (readBitsIntLe n s).2.bitsLeft ≤ 7 := by
  unfold KaitaiStream.readBitsIntLe
  rw [if_neg (show ¬ (32 : Int) < n by omega)]
  by_cases hneed : (0 : Int) < n - s.bitsLeft
  · simp only [hneed, if_true]
    rcases hr : readBytes (((n - s.bitsLeft).toNat + 7) / 8) s with ⟨r1, r2⟩
    cases r1 with
    | error e =>
      simp only [hr]
      exact ⟨hs0, hs7⟩
    | ok buf =>
      have hsmall := readBytes_ok_small (((n - s.bitsLeft).toNat + 7) / 8) (by omega) s buf r2 hr
      simp only [hr]
      rw [foldl_leFillOne_bitsLeft, hsmall.1, hsmall.2]
      dsimp only
      omega
  · simp only [hneed, if_false]
    omega

/-- C4 amended: every state reachable by the reader operations (bit reads
restricted to `n ∈ [0, 32]`, as in the claim) satisfies
`0 ≤ bitsLeft ≤ 7` — so `bitsLeft ≤ 32` holds before and after every
operation.  Mid-operation the field does exceed 32; see the
counterexample. -/
theorem reachable_bitsLeft_bound {s : KaitaiStream} (h : Reachable s) :
    0 ≤ s.bitsLeft ∧ s.bitsLeft ≤ 7 := by
  induction h with
  | ofBytes data => exact ⟨le_refl 0, by norm_num [KaitaiStream.ofBytes]⟩
  | alignToByte _ ih => exact ⟨le_refl 0, by norm_num [KaitaiStream.alignToByte]⟩
  | seek p _ ih => exact ih
  | ensureBytesLeft len _ ih => rw [ensureBytesLeft_snd]; exact ih
  | @readBytes s' len _ ih =>
    have h := mapUint8Array_bitsLeft len s'
    unfold KaitaiStream.readBytes
    rw [h]
    exact ih
  | readBytesTerm t inc consume eosError _ ih => rw [readBytesTerm_bitsLeft]; exact ih
  | ensureFixedContents expected _ ih => rw [ensureFixedContents_bitsLeft]; exact ih
  | readU4le _ ih => rw [readU4le_bitsLeft]; exact ih
  | readS8le _ ih => rw [readS8le_bitsLeft]; exact ih
  | readBitsIntBe n h0 h32 _ ih => exact readBitsIntBe_bitsLeft_bound n h0 h32 _ ih.1 ih.2
  | readBitsIntLe n h0 h32 _ ih => exact readBitsIntLe_bitsLeft_bound n h0 h32 _ ih.1 ih.2

/-- C4 counterexample: the reachable state after `readBitsIntBe(1)` on a
fresh 5-byte stream has `bitsLeft = 7`; during the following
`readBitsIntBe(32)` the `bitsLeft` field successively holds
7, 15, 23, 31, 39 — exceeding 32 while the operation runs. -/
theorem bitsLeft_during_counterexample :
    Reachable (readBitsIntBe 1 (ofBytes [0, 0, 0, 0, 0])).2
    ∧ (readBitsIntBe 1 (ofBytes [0, 0, 0, 0, 0])).2.bitsLeft = 7
    ∧ readBitsIntBeDuring 32 (readBitsIntBe 1 (ofBytes [0, 0, 0, 0, 0])).2 =
        [7, 15, 23, 31, 39]
    ∧ ¬ (39 : Int) ≤ 32 :=
  ⟨Reachable.readBitsIntBe 1 (by decide) (by decide) (Reachable.ofBytes [0, 0, 0, 0, 0]),
   by decide, by decide, by decide⟩

/-- Witness for `reachable_bitsLeft_bound` at a concretely reached state. -/
theorem reachable_bitsLeft_bound_witness :
    0 ≤ (readBitsIntBe 1 (ofBytes [255, 0, 0, 0, 0])).2.bitsLeft
    ∧ (readBitsIntBe 1 (ofBytes [255, 0, 0, 0, 0])).2.bitsLeft ≤ 7 :=
  reachable_bitsLeft_bound
    (Reachable.readBitsIntBe 1 (by decide) (by decide) (Reachable.ofBytes [255, 0, 0, 0, 0]))
